import Mathlib

/-!
Shallow embedding of the hustle-backend conversational catalog core:
the product lifecycle engine, the audit trail, caption parsing, catalog
slug generation and WhatsApp deep-link generation, translated from
src/app/models.py, src/app/routers/products.py, src/app/routers/webhook.py,
src/app/routers/sellers.py, src/app/services/logging.py and
src/app/services/whatsapp.py.

Modelling conventions:
* time is a natural number of seconds (the undo window `now + 30s` becomes
  `now + 30`);
* UUID keys become natural numbers; the relational store becomes lists of
  rows; the primary-key uniqueness of product ids is the `WF` predicate;
* `datetime` comparisons keep their strictness (`utcnow() < can_undo_until`
  is `now < d`);
* the regex character class `\d` is modelled as an ASCII digit, which is
  what every caption in the spec exercises;
* a prices is kept as the exact numeric token captured by group 1 of the
  price regex, avoiding a float detour that is irrelevant to the claims;
* an audit write that fails to persist is modelled by the `ok : Bool`
  argument of `log_action`: `ok = false` is the `except` branch of
  services/logging.py, which rolls back, prints and returns `None`.
-/

namespace Hustle

/-- Action-kind tags: the `ActionLog` string constants of app/models.py. -/
inductive ActionType where
  | sellerRegistered
  | productUploaded
  | productConfirmed
  | productCancelled
  | productRemoved
  | productRestored
  | buyerInterest
  | catalogViewed
  | whatsappMessageSent
  | whatsappMessageReceived
  | errorOccurred
deriving DecidableEq, Repr

/-- A row of the `sellers` table (app/models.py, class Seller). -/
structure Seller where
  id : Nat
  phone_number : String
  catalog_slug : String
deriving DecidableEq, Repr

/-- A row of the `products` table (app/models.py, class Product). -/
structure Product where
  id : Nat
  seller_id : Nat
  name : String
  description : Option String
  price : Option String
  is_active : Bool
  removed_at : Option Nat
  can_undo_until : Option Nat
  image_path : String
deriving DecidableEq, Repr

/-- A row of the `action_logs` table (app/models.py, class ActionLog),
restricted to the fields the claims talk about: the action-kind tag and
the seller / product references. -/
structure ActionLogRec where
  action_type : ActionType
  seller_id : Option Nat
  product_id : Option Nat
deriving DecidableEq, Repr

/-- The persistent state the lifecycle routes act on: the seller and
product tables, the append-only audit table, and the set of stored image
files under the upload directory. -/
structure Store where
  sellers : List Seller
  products : List Product
  logs : List ActionLogRec
  assets : List String
deriving DecidableEq, Repr

/-- Primary-key uniqueness of product ids, which the relational store
guarantees; by-id updates touch exactly one row under it. -/
def WF (s : Store) : Prop := (s.products.map Product.id).Nodup

instance (s : Store) : Decidable (WF s) := by
  unfold WF; infer_instance

/-- The PRODUCT_UPLOADED record intake writes for a new draft row. -/
def uploadedRec (sellerId pid : Nat) : ActionLogRec :=
  { action_type := .productUploaded, seller_id := some sellerId, product_id := some pid }

/-- The PRODUCT_CONFIRMED record confirm writes for a row. -/
def confirmedRec (p : Product) : ActionLogRec :=
  { action_type := .productConfirmed, seller_id := some p.seller_id, product_id := some p.id }

/-- The PRODUCT_CANCELLED record cancel writes: the product reference is
absent (the row is deleted), only the seller lookup is referenced. -/
def cancelledRec (sellerId : Option Nat) : ActionLogRec :=
  { action_type := .productCancelled, seller_id := sellerId, product_id := none }

/-- The PRODUCT_REMOVED record remove writes for a row. -/
def removedRec (p : Product) : ActionLogRec :=
  { action_type := .productRemoved, seller_id := some p.seller_id, product_id := some p.id }

/-- The PRODUCT_RESTORED record restore writes for a row. -/
def restoredRec (p : Product) : ActionLogRec :=
  { action_type := .productRestored, seller_id := some p.seller_id, product_id := some p.id }

/-- services/logging.py, log_action: appends one audit row and commits.
`ok = false` is the failure path: the `except` branch rolls the audit
session back, prints the error and returns `None`; nothing is raised and
no other table is touched. -/
def log_action (ok : Bool) (e : ActionLogRec) (s : Store) : Store :=
  if ok then { s with logs := s.logs ++ [e] } else s

/-! ### Caption parsing

webhook.py lines 164-176 and products.py lines 149-166 share the pattern
`re.search(r'[\$£€]?(\d+(?:\.\d{2})?)', caption)` followed by the
name-extraction steps. -/

/-- The character class `[\$£€]`. -/
def isCurrencySym (c : Char) : Bool := c = '$' || c = '£' || c = '€'

/-- The separator class of `re.sub(r'[-–—:]$', '', name)`: hyphen,
en-dash, em-dash, colon. -/
def isSepChar (c : Char) : Bool := c = '-' || c = '–' || c = '—' || c = ':'

/-- The optional decimal group `(?:\.\d{2})?`, matched greedily right
after the integer digits: it consumes a dot and exactly two digits when
they are present, and nothing otherwise. -/
def decGroup : List Char → List Char
  | '.' :: a :: b :: _ => if a.isDigit && b.isDigit then ['.', a, b] else []
  | _ => []

/-- The capture group `(\d+(?:\.\d{2})?)` matched greedily at the head of
`cs` (the head is known to be a digit when this is used). -/
def numToken (cs : List Char) : List Char :=
  cs.takeWhile Char.isDigit ++ decGroup (cs.drop (cs.takeWhile Char.isDigit).length)

/-- Matching `[\$£€]?(\d+(?:\.\d{2})?)` anchored at the head of `cs`;
returns the capture group 1 (the numeric token without the currency
symbol) when the pattern matches here.  A currency symbol not followed by
a digit fails: the empty alternative of `[\$£€]?` then requires a digit
at the same position, which the symbol is not. -/
def matchHere (cs : List Char) : Option (List Char) :=
  match cs with
  | [] => none
  | c :: rest =>
    if isCurrencySym c then
      if rest.head?.any Char.isDigit then some (numToken rest) else none
    else if c.isDigit then some (numToken cs)
    else none

/-- `re.search`: try each position left to right, return the start index
of the first match together with group 1.  `k` is the index of the head
of the remaining suffix. -/
def priceSearch : List Char → Nat → Option (Nat × List Char)
  | [], _ => none
  | c :: rest, k =>
    match matchHere (c :: rest) with
    | some tok => some (k, tok)
    | none => priceSearch rest (k + 1)

/-- Python `str.strip()` on a character list: drop whitespace from both
ends. -/
def pyStripList (cs : List Char) : List Char :=
  ((cs.dropWhile Char.isWhitespace).reverse.dropWhile Char.isWhitespace).reverse

/-- Python `str.strip()`. -/
def pyStrip (s : String) : String := (pyStripList s.toList).asString

/-- `re.sub(r'[-–—:]$', '', name)`: removes one trailing separator
character when there is one. -/
def dropTrailingSep (s : String) : String :=
  match s.toList.getLast? with
  | some c => if isSepChar c then s.toList.dropLast.asString else s
  | none => s

/-- The caption-parsing steps of webhook.py handle_image_message 164-176
(identical in products.py upload_product_via_whatsapp 149-166): returns
the product name and the optional price token.  `none` is a missing
caption, and the empty caption is equally falsy under `if caption:`. -/
def parseCaption (caption : Option String) : String × Option String :=
  match caption with
  | none => ("Untitled Product", none)
  | some cap =>
    if cap = "" then ("Untitled Product", none)
    else
      match priceSearch cap.toList 0 with
      | some (start, tok) =>
        let name0 := pyStrip (cap.toList.take start).asString
        let name1 := if name0 = "" then "Untitled Product" else name0
        (pyStrip (dropTrailingSep name1), some tok.asString)
      | none => ((cap.toList.take 50).asString, none)

/-! ### Lifecycle operations -/

/-- webhook.py handle_image_message lines 125-237, successful path with a
known seller: the caption is parsed, the downloaded image is saved, and
the draft row (`is_active = False`) is inserted.  Committing the insert
fires the `after_insert` listener log_product_insert (models.py 216-226),
which writes one PRODUCT_UPLOADED audit row; the router then writes a
second PRODUCT_UPLOADED row explicitly (webhook.py 221-227).  `pid` is
the fresh primary key the store assigns to the new row. -/
def handle_image_message (ok : Bool) (sellerId : Nat) (caption : Option String)
    (pid : Nat) (imgPath : String) (s : Store) : Store :=
  let parsed := parseCaption caption
  let p : Product :=
    { id := pid, seller_id := sellerId, name := parsed.1,
      description := caption, price := parsed.2,
      is_active := false, removed_at := none, can_undo_until := none,
      image_path := imgPath }
  let s1 := { s with assets := s.assets ++ [imgPath], products := s.products ++ [p] }
  let s2 := log_action ok (uploadedRec sellerId pid) s1
  log_action ok (uploadedRec sellerId pid) s2

inductive ConfirmOutcome where
  | invalidId
  | notFound
  | activated
  | deleted
deriving DecidableEq, Repr

/-- webhook.py confirm_product lines 259-329 (products.py
confirm_product_upload 225-291 performs the same transitions): the
product is looked up by id only — the route never checks that the row is
still a draft.  `confirmed = true` activates the row and logs
PRODUCT_CONFIRMED; `confirmed = false` deletes the image file when it
exists, deletes the row and logs PRODUCT_CANCELLED with the seller
reference only. -/
def confirm_product (ok : Bool) (pid : Nat) (confirmed : Bool) (s : Store) :
    ConfirmOutcome × Store :=
  match s.products.find? (fun p => p.id == pid) with
  | none => (ConfirmOutcome.notFound, s)
  | some p =>
    let seller := s.sellers.find? (fun x => x.id == p.seller_id)
    if confirmed then
      let ps := s.products.map (fun q => if q.id == pid then { q with is_active := true } else q)
      let s1 := { s with products := ps }
      (ConfirmOutcome.activated, log_action ok (confirmedRec p) s1)
    else
      let s1 := { s with
        assets := s.assets.filter (fun a => !(a == p.image_path)),
        products := s.products.filter (fun q => !(q.id == pid)) }
      (ConfirmOutcome.deleted,
        log_action ok (cancelledRec (seller.map (fun x => x.id))) s1)

/-- Product.can_undo (models.py 107-111): false for an active row or a
row with no deadline, else `utcnow() < can_undo_until`. -/
def can_undo (now : Nat) (p : Product) : Bool :=
  if p.is_active then false
  else
    match p.can_undo_until with
    | none => false
    | some d => now < d

/-- One iteration of the loop in products.py remove_products 382-403: the
row must be found active to be touched; a miss is silently skipped. -/
def removeStep (ok : Bool) (now deadline : Nat) (acc : Nat × Store) (pid : Nat) :
    Nat × Store :=
  match acc.2.products.find? (fun p => p.id == pid && p.is_active) with
  | none => acc
  | some p =>
    let ps := acc.2.products.map (fun q =>
      if q.id == pid then
        { q with is_active := false, removed_at := some now, can_undo_until := some deadline }
      else q)
    let s1 := { acc.2 with products := ps }
    (acc.1 + 1, log_action ok (removedRec p) s1)

/-- products.py remove_products 370-415: `undo_window = utcnow() + 30s` is
computed once before the loop; the route reports the count of rows
actually removed. -/
def remove_products (ok : Bool) (ids : List Nat) (now : Nat) (s : Store) : Nat × Store :=
  ids.foldl (removeStep ok now (now + 30)) (0, s)

inductive RestoreOutcome where
  | notFound
  | gone
  | restored
deriving DecidableEq, Repr

/-- products.py restore_product 418-460: looks up an inactive row by id
(404 when absent), checks `can_undo` lazily (410 Gone when it fails, with
no mutation), else reactivates the row, clears both timestamps and logs
PRODUCT_RESTORED. -/
def restore_product (ok : Bool) (pid : Nat) (now : Nat) (s : Store) :
    RestoreOutcome × Store :=
  match s.products.find? (fun p => p.id == pid && !p.is_active) with
  | none => (RestoreOutcome.notFound, s)
  | some p =>
    if !can_undo now p then (RestoreOutcome.gone, s)
    else
      let ps := s.products.map (fun q =>
        if q.id == pid then
          { q with is_active := true, removed_at := none, can_undo_until := none }
        else q)
      let s1 := { s with products := ps }
      (RestoreOutcome.restored, log_action ok (restoredRec p) s1)

/-! ### Catalog-slug generation

webhook.py auto_register_seller 356-368 and sellers.py register_seller
47-50 share the pattern: generate an 8-character candidate with
`secrets.choice(string.ascii_lowercase + string.digits)` per position,
then `while db.query(Seller).filter(catalog_slug == slug).first():`
regenerate.  The loop has no iteration cap and no failure branch. -/

/-- `string.ascii_lowercase + string.digits`. -/
def slugAlphabet : List Char := "abcdefghijklmnopqrstuvwxyz0123456789".toList

/-- generate_slug: 8 draws from the 36-character alphabet; `draw i` is the
index produced by the i-th `secrets.choice` call (reduced mod 36 so that
every draw function denotes a choice from the alphabet). -/
def generate_slug (draw : Nat → Nat) : String :=
  ((List.range 8).map (fun i => slugAlphabet.getD (draw i % 36) 'a')).asString

/-- The collision check `db.query(Seller).filter(Seller.catalog_slug == slug).first()`. -/
def slugTaken (s : Store) (slug : String) : Bool :=
  s.sellers.any (fun x => x.catalog_slug == slug)

/-- The retry loop observed for `fuel` iterations, starting at candidate
index `i`: `none` means the loop is still running (it has neither
assigned a slug nor failed) after `fuel` collision checks. -/
def slugLoopFrom (cands : Nat → String) (s : Store) : Nat → Nat → Option String
  | _, 0 => none
  | i, fuel + 1 =>
    if slugTaken s (cands i) then slugLoopFrom cands s (i + 1) fuel
    else some (cands i)

/-- The retry loop of auto_register_seller / register_seller, observed
for `fuel` iterations. -/
def slugLoop (cands : Nat → String) (s : Store) (fuel : Nat) : Option String :=
  slugLoopFrom cands s 0 fuel

/-- The cap the claim asserts: some retry bound exists within which the
loop has always finished (the code has no loud-failure branch at all, so
exceeding a cap could only mean still looping). -/
def slugRetryCapped : Prop :=
  ∃ cap : Nat, ∀ (cands : Nat → String) (s : Store), slugLoop cands s cap ≠ none

/-! ### Phone normalization and deep links -/

/-- WhatsAppService._format_phone_number (services/whatsapp.py 376-395):
`re.sub(r'\D', '', phone)`, then prepend the default country code digit
exactly when 10 digits remain. -/
def format_phone_number (phone : String) : String :=
  let digits := phone.toList.filter Char.isDigit
  if digits.length = 10 then ('1' :: digits).asString else digits.asString

/-- UTF-8 bytes of a character, as urllib quoting encodes them. -/
def utf8Bytes (c : Char) : List Nat :=
  let n := c.toNat
  if n < 128 then [n]
  else if n < 2048 then [192 + n / 64, 128 + n % 64]
  else if n < 65536 then [224 + n / 4096, 128 + n / 64 % 64, 128 + n % 64]
  else [240 + n / 262144, 128 + n / 4096 % 64, 128 + n / 64 % 64, 128 + n % 64]

def hexUpper : List Char := "0123456789ABCDEF".toList

def percentByte (b : Nat) : List Char :=
  ['%', hexUpper.getD (b / 16) '0', hexUpper.getD (b % 16) '0']

/-- The characters `urllib.parse.quote` leaves as-is with its default
`safe='/'`: ASCII letters and digits, `_ . - ~` and `/`. -/
def quoteSafe (c : Char) : Bool :=
  c.isAlpha || c.isDigit || c = '_' || c = '.' || c = '-' || c = '~' || c = '/'

/-- urllib.parse.quote(message): percent-encode every unsafe character
per UTF-8 byte, uppercase hex. -/
def urlQuote (s : String) : String :=
  (s.toList.flatMap (fun c =>
    if quoteSafe c then [c] else (utf8Bytes c).flatMap percentByte)).asString

/-- WhatsAppService.generate_whatsapp_deep_link (services/whatsapp.py
397-419).  `if message:` is Python truthiness: `None` and the empty
string both take the branch without a text parameter. -/
def generate_whatsapp_deep_link (phone : String) (message : Option String) : String :=
  let fp := format_phone_number phone
  match message with
  | some m =>
    if m = "" then "https://wa.me/" ++ fp
    else "https://wa.me/" ++ fp ++ "?text=" ++ urlQuote m
  | none => "https://wa.me/" ++ fp

/-! ### Spec-side formulations -/

/-- The lifecycle states of spec section 4.2 that a stored row can
represent: `is_active` marks ACTIVE, and among inactive rows the undo
deadline separates REMOVED from DRAFT.  DISCARDED and PURGED rows are
deleted from the store. -/
inductive LifecycleState where
  | draft
  | active
  | removed
deriving DecidableEq, Repr

def productState (p : Product) : LifecycleState :=
  if p.is_active then .active
  else if p.can_undo_until.isSome then .removed
  else .draft

/-- Spec section 3 invariant, claim C5: `undoDeadline` is set iff the
state is REMOVED, and `removedAt` likewise. -/
def specUndoInv (p : Product) : Prop :=
  (p.can_undo_until.isSome ↔ productState p = .removed) ∧
  (p.removed_at.isSome ↔ productState p = .removed)

instance (p : Product) : Decidable (specUndoInv p) := by
  unfold specUndoInv; infer_instance

def storeUndoInv (s : Store) : Prop := ∀ p ∈ s.products, specUndoInv p

instance (s : Store) : Decidable (storeUndoInv s) := by
  unfold storeUndoInv; infer_instance

/-- A row as the remove loop rewrites it: inactive with both timestamps. -/
def removedRow (now dl : Nat) (q : Product) : Product :=
  { q with is_active := false, removed_at := some now, can_undo_until := some dl }

/-- The REMOVED version of a row as `remove` writes it. -/
def removedVersion (now : Nat) (p : Product) : Product := removedRow now (now + 30) p

/-- Spec-side description of `remove(listingIds)`: every row that is
currently ACTIVE and whose id is in the batch becomes REMOVED with the
two timestamps set; every other row is untouched. -/
def removeSpecProducts (ids : List Nat) (now : Nat) (ps : List Product) : List Product :=
  ps.map (fun p => if p.is_active && ids.contains p.id then removedVersion now p else p)

/-- Spec-side description of the audit records `remove(listingIds)`
emits: one PRODUCT_REMOVED per id that names an ACTIVE row, in batch
order, referencing that row and its seller. -/
def removeLogsSpec (ids : List Nat) (ps : List Product) : List ActionLogRec :=
  ids.filterMap (fun i =>
    (ps.find? (fun p => p.id == i && p.is_active)).map removedRec)

/-- Spec-side leftmost search: the first position of the caption at which
the price pattern matches, scanning positions in order. -/
def specSearch (cs : List Char) : Option (Nat × List Char) :=
  (List.range cs.length).findSome? (fun i =>
    (matchHere (cs.drop i)).map (fun t => (i, t)))

/-- Shape of the captured price token: a nonempty run of digits followed
by an optional dot-and-two-digits group. -/
def tokenShape (tok : List Char) : Prop :=
  ∃ intPart fracPart, intPart ≠ [] ∧ (∀ c ∈ intPart, c.isDigit) ∧
    (fracPart = [] ∨ ∃ d1 d2, d1.isDigit ∧ d2.isDigit ∧ fracPart = ['.', d1, d2]) ∧
    tok = intPart ++ fracPart

/-- The amended caption-parsing contract, written from the corrected
claim: find the leftmost position at which an optional currency symbol,
digits and an optional 2-digit decimal group match; the price is the
numeric token there; the name is the prefix before the match, stripped
of whitespace, defaulting to "Untitled Product" when that stripped
prefix is empty, and otherwise stripped of at most one trailing
separator character (hyphen, en-dash, em-dash, colon) and of whitespace
again — possibly ending empty.  Without a match the name is the first 50
characters; an absent or empty caption gives "Untitled Product". -/
def captionSpecAmended (caption : Option String) : String × Option String :=
  match caption with
  | none => ("Untitled Product", none)
  | some cap =>
    if cap = "" then ("Untitled Product", none)
    else
      match specSearch cap.toList with
      | some (start, tok) =>
        let pre := pyStrip (cap.toList.take start).asString
        let base := if pre = "" then "Untitled Product" else pre
        (pyStrip (dropTrailingSep base), some tok.asString)
      | none => ((cap.toList.take 50).asString, none)

/-! ### Concrete fixtures for counterexamples and witnesses -/

def sellerA : Seller := { id := 7, phone_number := "15551230001", catalog_slug := "a1b2c3d4" }

def activeProduct : Product :=
  { id := 1, seller_id := 7, name := "Red Shoes", description := some "Red Shoes $45.99",
    price := some "45.99", is_active := true, removed_at := none, can_undo_until := none,
    image_path := "u/shoes.jpg" }

def removedProduct : Product :=
  { id := 2, seller_id := 7, name := "Blue Hat", description := none, price := none,
    is_active := false, removed_at := some 100, can_undo_until := some 130,
    image_path := "u/hat.jpg" }

def draftProduct : Product :=
  { id := 3, seller_id := 7, name := "Green Bag", description := none, price := none,
    is_active := false, removed_at := none, can_undo_until := none,
    image_path := "u/bag.jpg" }

def baseStore : Store :=
  { sellers := [sellerA], products := [activeProduct, removedProduct, draftProduct],
    logs := [], assets := ["u/shoes.jpg", "u/hat.jpg", "u/bag.jpg"] }

def slugStore : Store :=
  { sellers := [{ id := 1, phone_number := "15551230002", catalog_slug := "aaaaaaaa" }],
    products := [], logs := [], assets := [] }

/-! Sanity checks of the executable model on the spec's examples. -/

example : parseCaption (some "Red Shoes $45.99") = ("Red Shoes", some "45.99") := by decide
example : parseCaption (some "Great watch, barely used") = ("Great watch, barely used", none) := by decide
example : parseCaption (some "") = ("Untitled Product", none) := by decide
example : parseCaption (some "--5") = ("-", some "5") := by decide
example : parseCaption (some "Bag - $30") = ("Bag", some "30") := by decide
example : generate_whatsapp_deep_link "(555) 123-4567" (some "Hi there") =
    "https://wa.me/15551234567?text=Hi%20there" := by decide
example : format_phone_number "+1 555 123 4567" = "15551234567" := by decide

/-! ### Helper lemmas: caption search -/

theorem priceSearch_eq_range (cs : List Char) : ∀ k : Nat,
    priceSearch cs k = (List.range cs.length).findSome? (fun i =>
      (matchHere (cs.drop i)).map (fun t => (k + i, t))) := by
  induction cs with
  | nil => intro k; rfl
  | cons c rest ih =>
    intro k
    have hlen : (c :: rest).length = rest.length + 1 := rfl
    rw [hlen, List.range_succ_eq_map, List.findSome?_cons]
    have htail : (List.map Nat.succ (List.range rest.length)).findSome? (fun i =>
        (matchHere ((c :: rest).drop i)).map (fun t => (k + i, t))) =
        priceSearch rest (k + 1) := by
      rw [List.findSome?_map, ih (k + 1)]
      congr 1
      funext i
      have hdrop : (c :: rest).drop (Nat.succ i) = rest.drop i := rfl
      have harith : (fun t : List Char => (k + Nat.succ i, t)) =
          (fun t : List Char => (k + 1 + i, t)) := by
        funext t
        have : k + Nat.succ i = k + 1 + i := by omega
        rw [this]
      simp only [Function.comp, hdrop, harith]
    cases h : matchHere (c :: rest) with
    | some tok =>
      show priceSearch (c :: rest) k = _
      unfold priceSearch
      rw [h]
      simp [h]
    | none =>
      show priceSearch (c :: rest) k = _
      unfold priceSearch
      rw [h]
      simp only [List.drop_zero, h, Option.map_none']
      exact htail.symm

theorem priceSearch_eq_specSearch (cs : List Char) :
    priceSearch cs 0 = specSearch cs := by
  rw [priceSearch_eq_range, specSearch]
  congr 1
  funext i
  have : (fun t : List Char => (0 + i, t)) = (fun t : List Char => (i, t)) := by
    funext t
    rw [Nat.zero_add]
  rw [this]

theorem decGroup_shape (cs : List Char) :
    decGroup cs = [] ∨
      ∃ d1 d2, d1.isDigit ∧ d2.isDigit ∧ decGroup cs = ['.', d1, d2] := by
  unfold decGroup
  split
  case _ a b rest =>
    by_cases h1 : a.isDigit && b.isDigit
    · have h2 := h1
      simp only [Bool.and_eq_true] at h2
      right
      exact ⟨a, b, h2.1, h2.2, by simp [h1]⟩
    · left; simp [h1]
  case _ => left; rfl

theorem digitsRun_shape {d : Char} {rest : List Char} (hd : d.isDigit) :
    tokenShape (numToken (d :: rest)) := by
  refine ⟨(d :: rest).takeWhile Char.isDigit,
    decGroup ((d :: rest).drop ((d :: rest).takeWhile Char.isDigit).length), ?_, ?_, ?_, rfl⟩
  · rw [List.takeWhile_cons_of_pos hd]
    exact List.cons_ne_nil _ _
  · intro c hc
    exact List.mem_takeWhile_imp hc
  · exact decGroup_shape _

theorem matchHere_shape {cs tok : List Char} (h : matchHere cs = some tok) :
    tokenShape tok := by
  cases cs with
  | nil => exact absurd h (by simp [matchHere])
  | cons c rest =>
    simp only [matchHere] at h
    by_cases hcur : isCurrencySym c
    · rw [if_pos hcur] at h
      by_cases hh : rest.head?.any Char.isDigit
      · rw [if_pos hh] at h
        cases rest with
        | nil => simp [Option.any] at hh
        | cons d rest' =>
          simp only [List.head?_cons, Option.any_some] at hh
          cases h
          exact digitsRun_shape hh
      · rw [if_neg hh] at h
        cases h
    · rw [if_neg hcur] at h
      by_cases hd : c.isDigit
      · rw [if_pos hd] at h
        cases h
        exact digitsRun_shape hd
      · rw [if_neg hd] at h
        cases h

/-! ### Helper lemmas: the audit writer and by-id row updates -/

theorem log_action_products (ok : Bool) (e : ActionLogRec) (s : Store) :
    (log_action ok e s).products = s.products := by
  unfold log_action; split <;> rfl

theorem log_action_sellers (ok : Bool) (e : ActionLogRec) (s : Store) :
    (log_action ok e s).sellers = s.sellers := by
  unfold log_action; split <;> rfl

theorem log_action_assets (ok : Bool) (e : ActionLogRec) (s : Store) :
    (log_action ok e s).assets = s.assets := by
  unfold log_action; split <;> rfl

theorem log_action_true_logs (e : ActionLogRec) (s : Store) :
    (log_action true e s).logs = s.logs ++ [e] := rfl

theorem log_action_false (e : ActionLogRec) (s : Store) :
    log_action false e s = s := rfl

/-- A by-id update that preserves ids leaves every by-id query for a
different id unchanged. -/
theorem find?_touch_other {g : Product → Product} (hg : ∀ q, (g q).id = q.id)
    {pid j : Nat} (hne : ¬j = pid) (c : Product → Bool) (ps : List Product) :
    (ps.map (fun q => if q.id == pid then g q else q)).find?
        (fun p => p.id == j && c p) =
      ps.find? (fun p => p.id == j && c p) := by
  rw [List.find?_map]
  have hfun : ((fun p => p.id == j && c p) ∘
      (fun q => if q.id == pid then g q else q)) = (fun p => p.id == j && c p) := by
    funext q
    by_cases hq : q.id = pid
    · simp only [Function.comp, hq, beq_self_eq_true, if_true, hg, beq_iff_eq]
      have h1 : (pid == j) = false := by simp [Ne.symm hne]
      simp [h1, hne]
    · simp [Function.comp, hq]
  rw [hfun]
  cases hf : ps.find? (fun p => p.id == j && c p) with
  | none => rfl
  | some p =>
    have hp := List.find?_some hf
    simp only [Bool.and_eq_true, beq_iff_eq] at hp
    simp [hp.1, hne]

/-- A by-id update that preserves ids, queried for that very id: the
query returns the updated row. -/
theorem find?_touch_self {g : Product → Product} (hg : ∀ q, (g q).id = q.id)
    {pid : Nat} (ps : List Product) :
    (ps.map (fun q => if q.id == pid then g q else q)).find? (fun p => p.id == pid) =
      (ps.find? (fun p => p.id == pid)).map (fun q => if q.id == pid then g q else q) := by
  rw [List.find?_map]
  have hfun : ((fun p : Product => p.id == pid) ∘
      (fun q => if q.id == pid then g q else q)) = (fun p : Product => p.id == pid) := by
    funext q
    by_cases hq : q.id = pid <;> simp [Function.comp, hq, hg]
  rw [hfun]

/-- A by-id update that preserves ids preserves the id column, hence
well-formedness. -/
theorem map_id_touch {g : Product → Product} (hg : ∀ q, (g q).id = q.id)
    (pid : Nat) (ps : List Product) :
    (ps.map (fun q => if q.id == pid then g q else q)).map Product.id =
      ps.map Product.id := by
  rw [List.map_map]
  apply List.map_congr_left
  intro q _
  by_cases hq : q.id = pid <;> simp [Function.comp, hq, hg]

/-- Under primary-key uniqueness, two rows with the same id are the same
row. -/
theorem eq_of_mem_of_id_eq {ps : List Product} (hnd : (ps.map Product.id).Nodup)
    {p q : Product} (hp : p ∈ ps) (hq : q ∈ ps) (hid : p.id = q.id) : p = q :=
  List.inj_on_of_nodup_map hnd hp hq hid

/-! ### Helper lemmas: the remove batch -/

theorem removeSpecProducts_nil (now : Nat) (ps : List Product) :
    removeSpecProducts [] now ps = ps := by
  unfold removeSpecProducts
  have h : ∀ p ∈ ps,
      (if p.is_active && List.contains [] p.id then removedVersion now p else p) = p := by
    intro p _
    simp
  rw [List.map_congr_left h]
  exact List.map_id' ps

theorem removeLogsSpec_nil (ps : List Product) : removeLogsSpec [] ps = [] := rfl

/-- Every record the spec-side remove description emits is tagged
PRODUCT_REMOVED. -/
theorem removeLogsSpec_types {ids : List Nat} {ps : List Product} :
    ∀ e ∈ removeLogsSpec ids ps, e.action_type = .productRemoved := by
  intro e he
  unfold removeLogsSpec at he
  obtain ⟨i, _, hi⟩ := List.mem_filterMap.mp he
  cases hfind : ps.find? (fun p => p.id == i && p.is_active) with
  | none => rw [hfind] at hi; cases hi
  | some p =>
    rw [hfind] at hi
    cases hi
    rfl

/-- The remove loop, starting from any accumulator, computes the
spec-side description: every ACTIVE row named by the (duplicate-free)
batch becomes REMOVED with both timestamps set, every other row is
untouched, one PRODUCT_REMOVED record per removed row is appended in
batch order, and the count grows by the number of removed rows. -/
theorem removeFold_spec (now : Nat) : ∀ (ids : List Nat) (c : Nat) (s : Store),
    ids.Nodup → WF s →
    List.foldl (removeStep true now (now + 30)) (c, s) ids =
      (c + (removeLogsSpec ids s.products).length,
       { s with products := removeSpecProducts ids now s.products,
                logs := s.logs ++ removeLogsSpec ids s.products }) := by
  intro ids
  induction ids with
  | nil =>
    intro c s _ _
    rw [List.foldl_nil, removeSpecProducts_nil, removeLogsSpec_nil]
    simp
  | cons i rest ih =>
    intro c s hnd hwf
    have hndr : rest.Nodup := (List.nodup_cons.mp hnd).2
    have hir : i ∉ rest := (List.nodup_cons.mp hnd).1
    rw [List.foldl_cons]
    cases hf : s.products.find? (fun p => p.id == i && p.is_active) with
    | none =>
      have hstep : removeStep true now (now + 30) (c, s) i = (c, s) := by
        unfold removeStep
        rw [hf]
      rw [hstep, ih c s hndr hwf]
      have hnone := List.find?_eq_none.mp hf
      have hprod : removeSpecProducts (i :: rest) now s.products =
          removeSpecProducts rest now s.products := by
        unfold removeSpecProducts
        apply List.map_congr_left
        intro p hp
        by_cases hpi : p.id = i
        · have hina : p.is_active = false := by
            have h1 := hnone p hp
            simp [hpi] at h1
            exact h1
          simp [hina]
        · simp [List.contains_cons, hpi]
      have hlogs : removeLogsSpec (i :: rest) s.products =
          removeLogsSpec rest s.products := by
        unfold removeLogsSpec
        rw [List.filterMap_cons_none]
        rw [hf]
        rfl
      rw [hprod, hlogs]
    | some p =>
      have hpmem := List.mem_of_find?_eq_some hf
      have hpp := List.find?_some hf
      simp only [Bool.and_eq_true, beq_iff_eq] at hpp
      have hgid : ∀ q : Product, (removedVersion now q).id = q.id := fun _ => rfl
      have hstep : removeStep true now (now + 30) (c, s) i =
          (c + 1, { s with
            products := s.products.map (fun q => if q.id == i then removedVersion now q else q),
            logs := s.logs ++ [removedRec p] }) := by
        unfold removeStep
        rw [hf]
        rfl
      rw [hstep]
      have hwf2 : WF { s with
          products := s.products.map (fun q => if q.id == i then removedVersion now q else q),
          logs := s.logs ++ [removedRec p] } := by
        unfold WF
        rw [map_id_touch hgid]
        exact hwf
      rw [ih (c + 1) _ hndr hwf2]
      have hlogsRest : removeLogsSpec rest
          (s.products.map (fun q => if q.id == i then removedVersion now q else q)) =
          removeLogsSpec rest s.products := by
        unfold removeLogsSpec
        apply List.filterMap_congr
        intro j hj
        have hji : ¬j = i := fun h => hir (h ▸ hj)
        rw [find?_touch_other hgid hji]
      have hlogsCons : removeLogsSpec (i :: rest) s.products =
          removedRec p :: removeLogsSpec rest s.products := by
        unfold removeLogsSpec
        rw [List.filterMap_cons_some]
        rw [hf]
        rfl
      have hprodRest : removeSpecProducts rest now
          (s.products.map (fun q => if q.id == i then removedVersion now q else q)) =
          removeSpecProducts (i :: rest) now s.products := by
        unfold removeSpecProducts
        rw [List.map_map]
        apply List.map_congr_left
        intro q hq
        by_cases hqi : q.id = i
        · have hq_eq_p : q = p := eq_of_mem_of_id_eq hwf hq hpmem (by rw [hqi, hpp.1])
          have hact : q.is_active = true := by rw [hq_eq_p]; exact hpp.2
          simp [Function.comp, hqi, hact, removedVersion, removedRow, List.contains_cons]
        · simp [Function.comp, hqi, List.contains_cons]
      rw [hlogsRest, hprodRest, hlogsCons]
      rw [List.append_assoc]
      simp only [List.singleton_append, List.length_cons]
      have harith : c + 1 + (removeLogsSpec rest s.products).length =
          c + ((removeLogsSpec rest s.products).length + 1) := by omega
      rw [harith]

/-! ### Helper lemmas: the timestamp invariant -/

theorem specUndoInv_removed_row (now dl : Nat) (q : Product) :
    specUndoInv (removedRow now dl q) := by
  simp [specUndoInv, productState, removedRow]

theorem specUndoInv_restored_row (q : Product) :
    specUndoInv { q with is_active := true, removed_at := none, can_undo_until := none } := by
  simp [specUndoInv, productState]

theorem storeUndoInv_removeStep (ok : Bool) (now dl : Nat) (acc : Nat × Store) (i : Nat)
    (h : storeUndoInv acc.2) : storeUndoInv (removeStep ok now dl acc i).2 := by
  unfold removeStep
  cases hf : acc.2.products.find? (fun p => p.id == i && p.is_active) with
  | none => exact h
  | some p =>
    intro q' hq'
    rw [log_action_products] at hq'
    obtain ⟨q, hq, rfl⟩ := List.mem_map.mp hq'
    by_cases hqi : q.id = i
    · simp only [hqi, beq_self_eq_true, if_true]
      exact specUndoInv_removed_row now dl q
    · simp only [beq_iff_eq, hqi, if_false]
      exact h q hq


theorem storeUndoInv_removeFold (ok : Bool) (now dl : Nat) :
    ∀ (ids : List Nat) (acc : Nat × Store), storeUndoInv acc.2 →
      storeUndoInv (List.foldl (removeStep ok now dl) acc ids).2 := by
  intro ids
  induction ids with
  | nil => intro acc h; exact h
  | cons i rest ih =>
    intro acc h
    rw [List.foldl_cons]
    exact ih _ (storeUndoInv_removeStep ok now dl acc i h)

/-! ### Helper lemmas: audit failure does not touch business state -/

theorem removeStep_sellers (ok : Bool) (now dl : Nat) (acc : Nat × Store) (i : Nat) :
    (removeStep ok now dl acc i).2.sellers = acc.2.sellers := by
  unfold removeStep
  cases hf : acc.2.products.find? (fun p => p.id == i && p.is_active) with
  | none => rfl
  | some p => rw [log_action_sellers]

theorem removeStep_assets (ok : Bool) (now dl : Nat) (acc : Nat × Store) (i : Nat) :
    (removeStep ok now dl acc i).2.assets = acc.2.assets := by
  unfold removeStep
  cases hf : acc.2.products.find? (fun p => p.id == i && p.is_active) with
  | none => rfl
  | some p => rw [log_action_assets]

theorem removeFold_sellers (ok : Bool) (now dl : Nat) :
    ∀ (ids : List Nat) (acc : Nat × Store),
      (List.foldl (removeStep ok now dl) acc ids).2.sellers = acc.2.sellers := by
  intro ids
  induction ids with
  | nil => intro acc; rfl
  | cons i rest ih =>
    intro acc
    rw [List.foldl_cons, ih, removeStep_sellers]

theorem removeFold_assets (ok : Bool) (now dl : Nat) :
    ∀ (ids : List Nat) (acc : Nat × Store),
      (List.foldl (removeStep ok now dl) acc ids).2.assets = acc.2.assets := by
  intro ids
  induction ids with
  | nil => intro acc; rfl
  | cons i rest ih =>
    intro acc
    rw [List.foldl_cons, ih, removeStep_assets]

/-- Runs of the remove loop that differ only in audit-write success (and
in already-written audit rows) produce the same count and the same
product table. -/
theorem removeFold_ok_agnostic (now dl : Nat) :
    ∀ (ids : List Nat) (c : Nat) (s1 s2 : Store), s1.products = s2.products →
      (List.foldl (removeStep false now dl) (c, s1) ids).1 =
        (List.foldl (removeStep true now dl) (c, s2) ids).1 ∧
      (List.foldl (removeStep false now dl) (c, s1) ids).2.products =
        (List.foldl (removeStep true now dl) (c, s2) ids).2.products := by
  intro ids
  induction ids with
  | nil => intro c s1 s2 h; exact ⟨rfl, h⟩
  | cons i rest ih =>
    intro c s1 s2 h
    rw [List.foldl_cons, List.foldl_cons]
    cases hf : s2.products.find? (fun p => p.id == i && p.is_active) with
    | none =>
      have hstep1 : removeStep false now dl (c, s1) i = (c, s1) := by
        unfold removeStep
        rw [show (c, s1).2.products = s2.products from h, hf]
      have hstep2 : removeStep true now dl (c, s2) i = (c, s2) := by
        unfold removeStep
        rw [hf]
      rw [hstep1, hstep2]
      exact ih c s1 s2 h
    | some p =>
      have hstep1 : removeStep false now dl (c, s1) i =
          (c + 1, { s1 with
            products := s1.products.map (fun q => if q.id == i then removedRow now dl q else q) }) := by
        unfold removeStep
        rw [show (c, s1).2.products = s2.products from h, hf]
        rfl
      have hstep2 : removeStep true now dl (c, s2) i =
          (c + 1, { s2 with
            products := s2.products.map (fun q => if q.id == i then removedRow now dl q else q),
            logs := s2.logs ++ [removedRec p] }) := by
        unfold removeStep
        rw [hf]
        rfl
      rw [hstep1, hstep2]
      apply ih
      simp [h]

/-! ### Helper lemmas: slug generation -/

theorem slugLoopFrom_fresh : ∀ (fuel i : Nat) (cands : Nat → String) (s : Store)
    (slug : String), slugLoopFrom cands s i fuel = some slug →
    slugTaken s slug = false := by
  intro fuel
  induction fuel with
  | zero => intro i cands s slug h; cases h
  | succ n ih =>
    intro i cands s slug h
    unfold slugLoopFrom at h
    by_cases ht : slugTaken s (cands i)
    · rw [if_pos ht] at h
      exact ih (i + 1) cands s slug h
    · rw [if_neg ht] at h
      cases h
      exact Bool.eq_false_iff.mpr ht

theorem slugLoopFrom_is_cand : ∀ (fuel i : Nat) (cands : Nat → String) (s : Store)
    (slug : String), slugLoopFrom cands s i fuel = some slug →
    ∃ j, slug = cands j := by
  intro fuel
  induction fuel with
  | zero => intro i cands s slug h; cases h
  | succ n ih =>
    intro i cands s slug h
    unfold slugLoopFrom at h
    by_cases ht : slugTaken s (cands i)
    · rw [if_pos ht] at h
      exact ih (i + 1) cands s slug h
    · rw [if_neg ht] at h
      cases h
      exact ⟨i, rfl⟩

theorem slugLoopFrom_stuck {s : Store} {slug : String} (h : slugTaken s slug = true) :
    ∀ (fuel i : Nat), slugLoopFrom (fun _ => slug) s i fuel = none := by
  intro fuel
  induction fuel with
  | zero => intro i; rfl
  | succ n ih =>
    intro i
    unfold slugLoopFrom
    rw [if_pos h]
    exact ih (i + 1)

theorem generate_slug_length (draw : Nat → Nat) : (generate_slug draw).length = 8 := by
  unfold generate_slug
  rw [List.length_asString, List.length_map, List.length_range]

theorem generate_slug_alphabet (draw : Nat → Nat) :
    ∀ c ∈ (generate_slug draw).toList, c ∈ slugAlphabet := by
  unfold generate_slug
  rw [List.toList_asString]
  intro c hc
  obtain ⟨i, _, rfl⟩ := List.mem_map.mp hc
  have hlt : draw i % 36 < slugAlphabet.length := by
    have h36 : slugAlphabet.length = 36 := rfl
    rw [h36]
    exact Nat.mod_lt _ (by omega)
  rw [List.getD_eq_getElem slugAlphabet 'a' hlt]
  exact List.getElem_mem hlt

/-! ### Claim C4 -/

/-- Claim C4: restoring a REMOVED listing whose undo deadline has passed
at call time fails with the Gone-class error (HTTP 410) and performs no
mutation: the store — in particular the listing with its removedAt and
undoDeadline values — is returned unchanged. -/
theorem restore_expired_gone (s : Store) (pid now d : Nat) (p : Product)
    (hfind : s.products.find? (fun q => q.id == pid && !q.is_active) = some p)
    (hdl : p.can_undo_until = some d) (hexp : d ≤ now) :
    restore_product true pid now s = (RestoreOutcome.gone, s) := by
  unfold restore_product
  rw [hfind]
  have hina : p.is_active = false := by
    have h1 := List.find?_some hfind
    simp only [Bool.and_eq_true, Bool.not_eq_true'] at h1
    exact h1.2
  have hcu : can_undo now p = false := by
    unfold can_undo
    rw [hina, hdl]
    have hnlt : ¬now < d := by omega
    simp [hnlt]
  simp [hcu]

/-- Witness for C4 at the fixture store: listing 2 was removed at 100
with deadline 130; restoring at time 200 returns Gone and the unchanged
store. -/
theorem restore_expired_gone_witness :
    restore_product true 2 200 baseStore = (RestoreOutcome.gone, baseStore) :=
  restore_expired_gone baseStore 2 200 130 removedProduct (by decide) (by decide)
    (by decide)

/-! ### Claim C10 -/

/-- Claim C10: restore on an inactive listing with no undo deadline (an
unconfirmed draft) passes the inactive-row lookup, then fails the
can_undo check: the route answers with the Gone-class error — not
NotFound — and performs no mutation. -/
theorem restore_draft_gone (s : Store) (pid now : Nat) (p : Product)
    (hfind : s.products.find? (fun q => q.id == pid && !q.is_active) = some p)
    (hdl : p.can_undo_until = none) :
    restore_product true pid now s = (RestoreOutcome.gone, s) ∧
      RestoreOutcome.gone ≠ RestoreOutcome.notFound := by
  refine ⟨?_, by decide⟩
  unfold restore_product
  rw [hfind]
  have hina : p.is_active = false := by
    have h1 := List.find?_some hfind
    simp only [Bool.and_eq_true, Bool.not_eq_true'] at h1
    exact h1.2
  have hcu : can_undo now p = false := by
    unfold can_undo
    rw [hina, hdl]
    rfl
  simp [hcu]

/-- Witness for C10 at the fixture store: listing 3 is an unconfirmed
draft (inactive, no deadline); restore answers Gone, not NotFound, and
changes nothing. -/
theorem restore_draft_gone_witness :
    restore_product true 3 50 baseStore = (RestoreOutcome.gone, baseStore) ∧
      RestoreOutcome.gone ≠ RestoreOutcome.notFound :=
  restore_draft_gone baseStore 3 50 draftProduct (by decide) (by decide)

/-! ### Claim C2 -/

/-- Claim C2 counterexample: the confirm/cancel route does not check the
DRAFT precondition.  Listing 1 of the fixture store is ACTIVE, not
DRAFT, yet cancel performs its transition: the row is deleted from the
store and its image asset removed. -/
theorem confirm_cancel_counterexample :
    productState activeProduct = LifecycleState.active ∧
    (confirm_product true 1 false baseStore).1 = ConfirmOutcome.deleted ∧
    (confirm_product true 1 false baseStore).2.products.find? (fun q => q.id == 1) = none ∧
    activeProduct.image_path ∉ (confirm_product true 1 false baseStore).2.assets := by
  decide

/-- Claim C2 amended: confirm and cancel require only that the listing
exists.  When the id names no row, both answer NotFound and mutate
nothing; when it names a row — whatever its lifecycle state — confirm
sets the row ACTIVE and cancel deletes the row together with its image
asset. -/
theorem confirm_cancel_require_existence_only (pid : Nat) (s : Store) :
    (s.products.find? (fun q => q.id == pid) = none →
      confirm_product true pid true s = (ConfirmOutcome.notFound, s) ∧
      confirm_product true pid false s = (ConfirmOutcome.notFound, s)) ∧
    (∀ p, s.products.find? (fun q => q.id == pid) = some p →
      (confirm_product true pid true s).1 = ConfirmOutcome.activated ∧
      (confirm_product true pid true s).2.products.find? (fun q => q.id == pid) =
        some { p with is_active := true } ∧
      (confirm_product true pid false s).1 = ConfirmOutcome.deleted ∧
      (confirm_product true pid false s).2.products.find? (fun q => q.id == pid) = none ∧
      p.image_path ∉ (confirm_product true pid false s).2.assets) := by
  constructor
  · intro hnone
    unfold confirm_product
    rw [hnone]
    exact ⟨rfl, rfl⟩
  · intro p hfind
    have hpid : p.id = pid := by
      have h1 := List.find?_some hfind
      simpa using h1
    refine ⟨?_, ?_, ?_, ?_, ?_⟩
    · unfold confirm_product
      rw [hfind]
      rfl
    · unfold confirm_product
      rw [hfind]
      show (log_action true (confirmedRec p) _).products.find? _ = _
      rw [log_action_products]
      have hg : ∀ q : Product, ({ q with is_active := true } : Product).id = q.id :=
        fun _ => rfl
      rw [find?_touch_self hg, hfind]
      simp [hpid]
    · unfold confirm_product
      rw [hfind]
      rfl
    · unfold confirm_product
      rw [hfind]
      show (log_action true _ _).products.find? _ = _
      rw [log_action_products]
      rw [List.find?_eq_none]
      intro q hq
      have := (List.mem_filter.mp hq).2
      simpa using this
    · unfold confirm_product
      rw [hfind]
      show p.image_path ∉ (log_action true _ _).assets
      rw [log_action_assets]
      intro hmem
      have := (List.mem_filter.mp hmem).2
      simp at this

/-- Witness for C2's amended contract at the fixture store: listing 1
exists (and is ACTIVE), so confirm activates it and cancel deletes it. -/
theorem confirm_cancel_witness :
    (confirm_product true 1 true baseStore).1 = ConfirmOutcome.activated ∧
    (confirm_product true 1 true baseStore).2.products.find? (fun q => q.id == 1) =
      some { activeProduct with is_active := true } ∧
    (confirm_product true 1 false baseStore).1 = ConfirmOutcome.deleted ∧
    (confirm_product true 1 false baseStore).2.products.find? (fun q => q.id == 1) = none ∧
    activeProduct.image_path ∉ (confirm_product true 1 false baseStore).2.assets :=
  (confirm_cancel_require_existence_only 1 baseStore).2 activeProduct (by decide)

/-! ### Claim C5 -/

/-- Claim C5 counterexample: the fixture store satisfies the timestamp
invariant (undoDeadline and removedAt set iff REMOVED), yet confirm
applied to the REMOVED listing 2 — which the route permits, having no
DRAFT check — produces a store violating it: the row becomes ACTIVE while
keeping removedAt and undoDeadline set. -/
theorem undo_inv_counterexample :
    storeUndoInv baseStore ∧ ¬storeUndoInv (confirm_product true 2 true baseStore).2 := by
  constructor
  · intro p hp
    fin_cases hp <;> decide
  · intro h
    have h2 := h { removedProduct with is_active := true } (by decide)
    revert h2
    decide

/-- Claim C5 amended: the invariant (undoDeadline set iff REMOVED,
removedAt likewise) is preserved by intake, remove, restore and cancel,
and by confirm on a listing that is not REMOVED; confirm on a REMOVED
listing breaks it (see the counterexample). -/
theorem undo_inv_preserved (ok : Bool) :
    (∀ sid cap pid path s, storeUndoInv s →
      storeUndoInv (handle_image_message ok sid cap pid path s)) ∧
    (∀ ids now s, storeUndoInv s → storeUndoInv (remove_products ok ids now s).2) ∧
    (∀ pid now s, storeUndoInv s → storeUndoInv (restore_product ok pid now s).2) ∧
    (∀ pid s, storeUndoInv s → storeUndoInv (confirm_product ok pid false s).2) ∧
    (∀ pid s p, WF s → storeUndoInv s →
      s.products.find? (fun q => q.id == pid) = some p →
      productState p ≠ LifecycleState.removed →
      storeUndoInv (confirm_product ok pid true s).2) := by
  refine ⟨?_, ?_, ?_, ?_, ?_⟩
  · intro sid cap pid path s h
    intro q hq
    unfold handle_image_message at hq
    rw [log_action_products, log_action_products] at hq
    rcases List.mem_append.mp hq with hold | hnew
    · exact h q hold
    · rw [List.mem_singleton] at hnew
      subst hnew
      simp [specUndoInv, productState]
  · intro ids now s h
    exact storeUndoInv_removeFold ok now (now + 30) ids (0, s) h
  · intro pid now s h
    unfold restore_product
    cases hf : s.products.find? (fun p => p.id == pid && !p.is_active) with
    | none => exact h
    | some p =>
      by_cases hcu : can_undo now p
      · simp only [hcu, Bool.not_true, Bool.false_eq_true, if_false]
        intro q' hq'
        rw [log_action_products] at hq'
        obtain ⟨q, hq, rfl⟩ := List.mem_map.mp hq'
        by_cases hqi : q.id = pid
        · simp only [hqi, beq_self_eq_true, if_true]
          exact specUndoInv_restored_row q
        · simp only [beq_iff_eq, hqi, if_false]
          exact h q hq
      · simp only [Bool.not_eq_true] at hcu
        simp only [hcu, Bool.not_false, if_true]
        exact h
  · intro pid s h
    unfold confirm_product
    cases hf : s.products.find? (fun p => p.id == pid) with
    | none => exact h
    | some p =>
      simp only [Bool.false_eq_true, if_false]
      intro q hq
      rw [log_action_products] at hq
      exact h q (List.mem_filter.mp hq).1
  · intro pid s p hwf h hfind hstate
    have hpid : p.id = pid := by
      have h1 := List.find?_some hfind
      simpa using h1
    have hpmem := List.mem_of_find?_eq_some hfind
    have hpinv := h p hpmem
    have hundo : p.can_undo_until = none := by
      cases hcu : p.can_undo_until with
      | none => rfl
      | some d =>
        exfalso
        apply hstate
        exact (hpinv.1.mp (by rw [hcu]; rfl))
    have hrem : p.removed_at = none := by
      cases hra : p.removed_at with
      | none => rfl
      | some t =>
        exfalso
        apply hstate
        exact (hpinv.2.mp (by rw [hra]; rfl))
    unfold confirm_product
    rw [hfind]
    simp only [if_true]
    intro q' hq'
    rw [log_action_products] at hq'
    obtain ⟨q, hq, rfl⟩ := List.mem_map.mp hq'
    by_cases hqi : q.id = pid
    · have hqp : q = p := eq_of_mem_of_id_eq hwf hq hpmem (by rw [hqi, hpid])
      subst hqp
      simp only [hqi, beq_self_eq_true, if_true]
      constructor
      · simp [productState, hundo]
      · simp [productState, hrem]
    · simp only [beq_iff_eq, hqi, if_false]
      exact h q hq

/-- Witness for C5's amended invariant preservation at the fixture
store: restoring listing 2 inside its window and confirming the ACTIVE
(hence not REMOVED) listing 1 both keep every row's timestamps
consistent with its state. -/
theorem undo_inv_preserved_witness :
    storeUndoInv (restore_product true 2 120 baseStore).2 ∧
    storeUndoInv (confirm_product true 1 true baseStore).2 :=
  ⟨(undo_inv_preserved true).2.2.1 2 120 baseStore (by decide),
   (undo_inv_preserved true).2.2.2.2 1 baseStore activeProduct (by decide) (by decide)
     (by decide) (by decide)⟩

/-! ### Claim C6 -/

/-- Claim C6: over a duplicate-free batch of ids against a store with
unique product ids, remove turns exactly the currently-ACTIVE listings of
the batch into REMOVED rows with removedAt = now and undoDeadline =
now + 30, silently leaves every other listing untouched (no error, no
mutation), appends exactly one PRODUCT_REMOVED record per removed
listing, and reports their number. -/
theorem remove_products_spec (ids : List Nat) (now : Nat) (s : Store)
    (hids : ids.Nodup) (hwf : WF s) :
    remove_products true ids now s =
      ((removeLogsSpec ids s.products).length,
       { s with products := removeSpecProducts ids now s.products,
                logs := s.logs ++ removeLogsSpec ids s.products }) ∧
    (∀ e ∈ removeLogsSpec ids s.products, e.action_type = ActionType.productRemoved) := by
  constructor
  · unfold remove_products
    rw [removeFold_spec now ids 0 s hids hwf]
    simp
  · exact removeLogsSpec_types

/-- Witness for C6 at the fixture store with batch {1, 3}: listing 1 is
ACTIVE and gets removed with its timestamps and one PRODUCT_REMOVED
record; listing 3 is a draft and is silently skipped; the reported count
is the length of the emitted record list (here 1). -/
theorem remove_products_spec_witness :
    remove_products true [1, 3] 50 baseStore =
      ((removeLogsSpec [1, 3] baseStore.products).length,
       { baseStore with products := removeSpecProducts [1, 3] 50 baseStore.products,
                        logs := baseStore.logs ++ removeLogsSpec [1, 3] baseStore.products }) ∧
    (∀ e ∈ removeLogsSpec [1, 3] baseStore.products,
      e.action_type = ActionType.productRemoved) :=
  remove_products_spec [1, 3] 50 baseStore (by decide) (by decide)

/-! ### Claim C1 -/

/-- Claim C1 counterexample: one successful image intake writes TWO
PRODUCT_UPLOADED audit records, not exactly one — the `after_insert`
listener (models.py log_product_insert) fires on the row insert and the
webhook router then calls log_action explicitly for the same transition
(webhook.py 221-227). -/
theorem audit_once_counterexample :
    (handle_image_message true 7 (some "Red Shoes $45.99") 9 "u/x.jpg" baseStore).logs =
      [uploadedRec 7 9, uploadedRec 7 9] ∧
    ([uploadedRec 7 9, uploadedRec 7 9] : List ActionLogRec).length ≠ 1 := by
  constructor
  · decide
  · decide

/-- Claim C1 amended: each successful confirm, cancel, remove and restore
transition appends exactly one audit record with the matching kind —
confirm, remove and restore reference the affected listing and its
seller, while cancel references the seller only (the listing row is
deleted) — but each successful webhook intake appends exactly two
PRODUCT_UPLOADED records for the new listing, one from the ORM
after-insert hook and one from the router's explicit call. -/
theorem audit_per_transition :
    (∀ sid cap pid path s, (handle_image_message true sid cap pid path s).logs =
        s.logs ++ [uploadedRec sid pid, uploadedRec sid pid]) ∧
    (∀ pid s p, s.products.find? (fun q => q.id == pid) = some p →
        (confirm_product true pid true s).2.logs = s.logs ++ [confirmedRec p]) ∧
    (∀ pid s p, s.products.find? (fun q => q.id == pid) = some p →
        (confirm_product true pid false s).2.logs = s.logs ++
          [cancelledRec ((s.sellers.find? (fun x => x.id == p.seller_id)).map
            (fun x => x.id))]) ∧
    (∀ ids now s, ids.Nodup → WF s →
        (remove_products true ids now s).2.logs = s.logs ++ removeLogsSpec ids s.products ∧
        (removeLogsSpec ids s.products).length = (remove_products true ids now s).1 ∧
        (∀ e ∈ removeLogsSpec ids s.products,
          e.action_type = ActionType.productRemoved)) ∧
    (∀ pid now s p, s.products.find? (fun q => q.id == pid && !q.is_active) = some p →
        can_undo now p = true →
        (restore_product true pid now s).2.logs = s.logs ++ [restoredRec p]) := by
  refine ⟨?_, ?_, ?_, ?_, ?_⟩
  · intro sid cap pid path s
    unfold handle_image_message
    rw [log_action_true_logs, log_action_true_logs]
    rw [List.append_assoc]
    rfl
  · intro pid s p hfind
    unfold confirm_product
    rw [hfind]
    rfl
  · intro pid s p hfind
    unfold confirm_product
    rw [hfind]
    rfl
  · intro ids now s hids hwf
    have hspec := removeFold_spec now ids 0 s hids hwf
    unfold remove_products
    rw [hspec]
    exact ⟨rfl, by simp, removeLogsSpec_types⟩
  · intro pid now s p hfind hcu
    unfold restore_product
    rw [hfind]
    simp only [hcu, Bool.not_true, Bool.false_eq_true, if_false]
    rfl

/-- Witness for C1's amended record counts at the fixture store: an
intake appends its two PRODUCT_UPLOADED records; confirming, cancelling
and restoring existing listings append their single records; the batch
remove appends one record per listing removed. -/
theorem audit_per_transition_witness :
    ((handle_image_message true 7 none 9 "u/x.jpg" baseStore).logs =
      baseStore.logs ++ [uploadedRec 7 9, uploadedRec 7 9]) ∧
    ((confirm_product true 1 true baseStore).2.logs =
      baseStore.logs ++ [confirmedRec activeProduct]) ∧
    ((confirm_product true 1 false baseStore).2.logs = baseStore.logs ++
      [cancelledRec ((baseStore.sellers.find?
        (fun x => x.id == activeProduct.seller_id)).map (fun x => x.id))]) ∧
    ((remove_products true [1, 3] 50 baseStore).2.logs =
      baseStore.logs ++ removeLogsSpec [1, 3] baseStore.products) ∧
    ((restore_product true 2 120 baseStore).2.logs =
      baseStore.logs ++ [restoredRec removedProduct]) :=
  ⟨audit_per_transition.1 7 none 9 "u/x.jpg" baseStore,
   audit_per_transition.2.1 1 baseStore activeProduct (by decide),
   audit_per_transition.2.2.1 1 baseStore activeProduct (by decide),
   (audit_per_transition.2.2.2.1 [1, 3] 50 baseStore (by decide) (by decide)).1,
   audit_per_transition.2.2.2.2 2 120 baseStore removedProduct (by decide) (by decide)⟩

/-! ### Claim C7 -/

/-- Claim C7: a failed audit write never aborts the triggering business
operation.  log_action's failure path returns normally with the store
untouched (it rolls back and reports, raising nothing), and every
lifecycle operation run with failing audit writes returns the same
outcome and the same product / seller / asset state as a run whose audit
writes succeed — only the audit table differs. -/
theorem audit_failure_harmless :
    (∀ e s, log_action false e s = s) ∧
    (∀ sid cap pid path s,
      (handle_image_message false sid cap pid path s).products =
        (handle_image_message true sid cap pid path s).products ∧
      (handle_image_message false sid cap pid path s).assets =
        (handle_image_message true sid cap pid path s).assets ∧
      (handle_image_message false sid cap pid path s).sellers =
        (handle_image_message true sid cap pid path s).sellers) ∧
    (∀ pid conf s,
      (confirm_product false pid conf s).1 = (confirm_product true pid conf s).1 ∧
      (confirm_product false pid conf s).2.products =
        (confirm_product true pid conf s).2.products ∧
      (confirm_product false pid conf s).2.assets =
        (confirm_product true pid conf s).2.assets) ∧
    (∀ ids now s,
      (remove_products false ids now s).1 = (remove_products true ids now s).1 ∧
      (remove_products false ids now s).2.products =
        (remove_products true ids now s).2.products ∧
      (remove_products false ids now s).2.sellers = s.sellers ∧
      (remove_products false ids now s).2.assets = s.assets) ∧
    (∀ pid now s,
      (restore_product false pid now s).1 = (restore_product true pid now s).1 ∧
      (restore_product false pid now s).2.products =
        (restore_product true pid now s).2.products) := by
  refine ⟨fun e s => rfl, ?_, ?_, ?_, ?_⟩
  · intro sid cap pid path s
    unfold handle_image_message
    rw [log_action_false, log_action_false]
    rw [log_action_products, log_action_products, log_action_assets, log_action_assets,
      log_action_sellers, log_action_sellers]
    exact ⟨rfl, rfl, rfl⟩
  · intro pid conf s
    unfold confirm_product
    cases hf : s.products.find? (fun p => p.id == pid) with
    | none => exact ⟨rfl, rfl, rfl⟩
    | some p =>
      cases conf with
      | true => simp [log_action]
      | false => simp [log_action]
  · intro ids now s
    unfold remove_products
    have h := removeFold_ok_agnostic now (now + 30) ids 0 s s rfl
    refine ⟨h.1, h.2, ?_, ?_⟩
    · exact removeFold_sellers false now (now + 30) ids (0, s)
    · exact removeFold_assets false now (now + 30) ids (0, s)
  · intro pid now s
    unfold restore_product
    cases hf : s.products.find? (fun p => p.id == pid && !p.is_active) with
    | none => exact ⟨rfl, rfl⟩
    | some p =>
      by_cases hcu : can_undo now p
      · simp [hcu, log_action]
      · simp only [Bool.not_eq_true] at hcu
        simp [hcu, log_action]

/-! ### Claim C8 -/

/-- Claim C8 counterexample: the retry loop of auto_register_seller /
register_seller has no iteration cap and no failure branch at all.  No
retry cap exists within which the loop has always finished: for any
proposed cap, a store already holding the slug that every draw produces
keeps the loop running past the cap with no loud failure. -/
theorem slug_cap_counterexample : ¬slugRetryCapped := by
  rintro ⟨cap, h⟩
  exact h (fun _ => "aaaaaaaa") slugStore
    (slugLoopFrom_stuck (by decide : slugTaken slugStore "aaaaaaaa" = true) cap 0)

/-- Claim C8 amended: every candidate is 8 characters drawn (via
secrets.choice, a cryptographically strong source not distinguishable in
this model from any other draw function) from the lowercase-alphanumeric
alphabet; the loop retries on collision against the store without any
retry cap (see the counterexample) and, whenever it terminates, the slug
it assigns is one of the candidates and is absent from the store at
assignment time. -/
theorem slug_loop_spec (draws : Nat → Nat → Nat) (s : Store) (fuel : Nat) (slug : String)
    (h : slugLoop (fun n => generate_slug (draws n)) s fuel = some slug) :
    slugTaken s slug = false ∧ slug.length = 8 ∧ ∀ c ∈ slug.toList, c ∈ slugAlphabet := by
  refine ⟨slugLoopFrom_fresh fuel 0 _ s slug h, ?_⟩
  obtain ⟨j, rfl⟩ := slugLoopFrom_is_cand fuel 0 _ s slug h
  exact ⟨generate_slug_length (draws j), generate_slug_alphabet (draws j)⟩

/-- Witness for C8: with a first draw that collides with the stored slug
"aaaaaaaa" and a second draw giving "abcdefgh", the loop retries once and
assigns "abcdefgh", which is fresh, 8 characters long and alphanumeric. -/
theorem slug_loop_spec_witness :
    slugTaken slugStore "abcdefgh" = false ∧ ("abcdefgh" : String).length = 8 ∧
      ∀ c ∈ ("abcdefgh" : String).toList, c ∈ slugAlphabet := by
  have h := slug_loop_spec (fun n i => if n = 0 then 0 else i) slugStore 5 "abcdefgh"
    (by decide)
  exact h

/-! ### Claim C9 -/

/-- Claim C9 counterexample: the claim quantifies over every message
text, but for the empty message the code takes the falsy branch of
`if message:` and emits no text parameter at all, not
`...?text=<encoded empty>`. -/
theorem deep_link_counterexample :
    generate_whatsapp_deep_link "1234567890" (some "") = "https://wa.me/11234567890" ∧
    generate_whatsapp_deep_link "1234567890" (some "") ≠
      "https://wa.me/11234567890?text=" := by
  constructor
  · decide
  · decide

/-- Claim C9 amended: deep-link generation keeps only the digits of the
phone number, prepends the default country code digit 1 exactly when 10
digits remain, and produces `https://wa.me/<digits>?text=<url-encoded
text>` for every NON-EMPTY message; for an absent or empty message the
URL is `https://wa.me/<digits>` with no text parameter. -/
theorem deep_link_amended (phone msg : String) :
    (generate_whatsapp_deep_link phone none = "https://wa.me/" ++ format_phone_number phone) ∧
    (generate_whatsapp_deep_link phone (some "") =
      "https://wa.me/" ++ format_phone_number phone) ∧
    (msg ≠ "" → generate_whatsapp_deep_link phone (some msg) =
      "https://wa.me/" ++ format_phone_number phone ++ "?text=" ++ urlQuote msg) ∧
    (∀ c ∈ (format_phone_number phone).toList, c.isDigit) ∧
    ((phone.toList.filter Char.isDigit).length = 10 →
      (format_phone_number phone).toList = '1' :: phone.toList.filter Char.isDigit) ∧
    ((phone.toList.filter Char.isDigit).length ≠ 10 →
      (format_phone_number phone).toList = phone.toList.filter Char.isDigit) := by
  refine ⟨rfl, ?_, ?_, ?_, ?_, ?_⟩
  · simp [generate_whatsapp_deep_link]
  · intro hmsg
    simp [generate_whatsapp_deep_link, hmsg, String.append_assoc]
  · intro c hc
    unfold format_phone_number at hc
    by_cases hlen : (phone.toList.filter Char.isDigit).length = 10
    · rw [if_pos hlen, List.toList_asString] at hc
      cases hc with
      | head => decide
      | tail _ hc' => exact List.of_mem_filter hc'
    · rw [if_neg hlen, List.toList_asString] at hc
      exact List.of_mem_filter hc
  · intro hlen
    unfold format_phone_number
    rw [if_pos hlen, List.toList_asString]
  · intro hlen
    unfold format_phone_number
    rw [if_neg hlen, List.toList_asString]

/-- Witness for C9's amended contract on the spec-style inputs: the
non-empty message clause produces the full deep link for the formatted
10-digit number. -/
theorem deep_link_amended_witness :
    generate_whatsapp_deep_link "(555) 123-4567" (some "Hi there") =
      "https://wa.me/" ++ format_phone_number "(555) 123-4567" ++ "?text=" ++
        urlQuote "Hi there" :=
  (deep_link_amended "(555) 123-4567" "Hi there").2.2.1 (by decide)

/-! ### Claim C3 -/

/-- Claim C3 counterexample: for caption "--5" the price token "5" is
found and the prefix before it is "--"; trimmed of whitespace and of
trailing separator characters that prefix is empty, so the claim requires
the name to default to "Untitled Product".  The code instead applies the
default before separator stripping and removes only one trailing
separator, yielding the name "-". -/
theorem caption_parse_counterexample :
    parseCaption (some "--5") = ("-", some "5") ∧
    ("-" : String) ≠ "Untitled Product" := by
  constructor
  · decide
  · decide

/-- Claim C3 amended: caption parsing scans for the leftmost position at
which an optional currency symbol, digits and an optional 2-digit decimal
group match; the price is that numeric token (a nonempty digit run with
an optional dot-and-two-digits tail).  The name is the prefix before the
match, stripped of whitespace; if THAT stripped prefix is empty the name
defaults to "Untitled Product", and otherwise AT MOST ONE trailing
separator character is removed before a final whitespace strip (so the
name can end up empty or still carry separators).  With no match the name
is the caption's first 50 characters; an absent or empty caption yields
"Untitled Product" with no price. -/
theorem caption_parse_amended :
    (∀ caption, parseCaption caption = captionSpecAmended caption) ∧
    (∀ cs i tok, specSearch cs = some (i, tok) → tokenShape tok) := by
  constructor
  · intro caption
    cases caption with
    | none => rfl
    | some cap =>
      by_cases hcap : cap = ""
      · subst hcap
        rfl
      · simp only [parseCaption, captionSpecAmended]
        rw [if_neg hcap, if_neg hcap, priceSearch_eq_specSearch]
  · intro cs i tok h
    unfold specSearch at h
    obtain ⟨l1, a, l2, _, ha, _⟩ := List.findSome?_eq_some_iff.mp h
    obtain ⟨t, ht, hpair⟩ := Option.map_eq_some'.mp ha
    have htok : t = tok := congrArg Prod.snd hpair
    exact htok ▸ matchHere_shape ht

/-- Witness for C3's amended description on the spec's own example: the
code and the amended spec-side description agree on
"Red Shoes $45.99", and the token found there has the digits-plus-
two-decimals shape. -/
theorem caption_parse_amended_witness :
    parseCaption (some "Red Shoes $45.99") = captionSpecAmended (some "Red Shoes $45.99") ∧
    tokenShape ['4', '5', '.', '9', '9'] :=
  ⟨caption_parse_amended.1 (some "Red Shoes $45.99"),
   caption_parse_amended.2 "Red Shoes $45.99".toList 10 ['4', '5', '.', '9', '9']
     (by decide)⟩

end Hustle
